import Mathlib

/-!
Verification of the `Evaluator` aggregation-and-scoring engine from `eval.py`.

The embedding models Python dictionaries as association lists over `String`
keys (insertion order preserved, first matching key wins on lookup, which
coincides with Python's unique-key dicts), Python's `defaultdict(set)`
`website_trackers` as a total function returning the (list-encoded) set of
trackers seen on a domain, and Python's `defaultdict(lambda: 0)`
`tracker_frequency` as an association list so that the key-insertion side
effect of `__getitem__` on a missing key is observable.  File contents are
modelled as the list of lines Python's file iteration yields (each line
retains its trailing newline character).  A raised exception
(`AssertionError` from the rank check, `KeyError` from an unknown blocker
or website) is modelled as `none`.  Scores are rational numbers, the exact
values of the floating-point arithmetic on these small inputs.
-/

/-- Lookup in an association list: first entry whose key matches, mirroring
Python `d[k]` / `k in d` on a dict with unique keys. -/
def lookupKey {α : Type} : List (String × α) → String → Option α
  | [], _ => none
  | (a, b) :: rest, k => if a = k then some b else lookupKey rest k

/-- Python dict `d[k] = v`: overwrite the first entry with key `k` in place,
or append a fresh entry at the end when the key is absent. -/
def setEntry {α : Type} : List (String × α) → String → α → List (String × α)
  | [], k, v => [(k, v)]
  | (a, b) :: rest, k, v => if a = k then (k, v) :: rest else (a, b) :: setEntry rest k v

/-- Split a character list at every comma, never collapsing and never
dropping fields, exactly like Python `str.split(",")`. -/
def commaSplitChars : List Char → List (List Char)
  | [] => [[]]
  | c :: cs =>
    if c = ',' then [] :: commaSplitChars cs
    else
      match commaSplitChars cs with
      | [] => [[c]]
      | g :: gs => (c :: g) :: gs

/-- Python `line.split(",")`: always returns at least one field; a line with
no comma (including the empty line) yields a single field. -/
def splitLine (line : String) : List String :=
  (commaSplitChars line.toList).map String.mk

/-- The first field of a line, Python `line.split(",")[0]`. -/
def originOf (line : String) : String :=
  (splitLine line).headD ""

/-- The tracker tokens of a line, Python `line.split(",")[1:]`. -/
def tokensOf (line : String) : List String :=
  (splitLine line).tail

/-- Per-blocker results: origin domain to the set (duplicate-free list) of
trackers that blocker reported on it. -/
abbrev Results := List (String × List String)

/-- The mutable state of `Evaluator.__init__` plus the pluggable evaluation
function installed at construction. -/
structure Evaluator where
  blocker_results : List (String × Results)
  website_trackers : String → List String
  tracker_frequency : List (String × Nat)
  websites : List (String × Nat)
  eval_func : Nat → Nat → ℚ

/-- Default evaluation function: `((1 / rank) ** 2) * tracker_frequency`. -/
def evaluation_function (rank tracker_frequency : Nat) : ℚ :=
  ((1 : ℚ) / (rank : ℚ)) ^ 2 * (tracker_frequency : ℚ)

/-- Alternative evaluation function: `(1 / rank) * tracker_frequency`. -/
def alt_evaluation_function (rank tracker_frequency : Nat) : ℚ :=
  ((1 : ℚ) / (rank : ℚ)) * (tracker_frequency : ℚ)

/-- A fresh `Evaluator()`: empty dicts, empty default sets, default
evaluation function. -/
def initEvaluator : Evaluator :=
  { blocker_results := []
    website_trackers := fun _ => []
    tracker_frequency := []
    websites := []
    eval_func := evaluation_function }

/-- Python `results[origin_domain].add(tracker)` on a `defaultdict(set)`: create a
singleton set when the origin is absent, otherwise add the tracker to the
existing set (a no-op when already present). -/
def addResult (results : Results) (origin tracker : String) : Results :=
  match lookupKey results origin with
  | none => setEntry results origin [tracker]
  | some ts => setEntry results origin (if tracker ∈ ts then ts else ts ++ [tracker])

/-- The body of the tracker loop in `process_data` (lines 51-59 of
`eval.py`): skip the tokens `''` and `'\n'`; for any other token bump its
global frequency and mark the (origin, tracker) pair seen when the pair is
new; in either case add the token to this blocker's result set. -/
def processTracker (e : Evaluator) (results : Results) (origin tracker : String) :
    Evaluator × Results :=
  if tracker = "" ∨ tracker = "\n" then (e, results)
  else if tracker ∈ e.website_trackers origin then (e, addResult results origin tracker)
  else
    ({ e with
        tracker_frequency :=
          setEntry e.tracker_frequency tracker
            ((lookupKey e.tracker_frequency tracker).getD 0 + 1)
        website_trackers := fun o =>
          if o = origin then tracker :: e.website_trackers o else e.website_trackers o },
      addResult results origin tracker)

/-- The tracker loop of `process_data` over the tokens of one line. -/
def processTrackers (origin : String) :
    Evaluator → Results → List String → Evaluator × Results
  | e, results, [] => (e, results)
  | e, results, t :: ts =>
    processTrackers origin (processTracker e results origin t).1
      (processTracker e results origin t).2 ts

/-- One iteration of the line loop of `process_data`: record or check the
origin's rank (the `assert` failing is `none`), then run the tracker loop. -/
def processLine (e : Evaluator) (results : Results) (rank : Nat) (line : String) :
    Option (Evaluator × Results) :=
  match lookupKey e.websites (originOf line) with
  | none =>
    some (processTrackers (originOf line)
      { e with websites := setEntry e.websites (originOf line) rank } results (tokensOf line))
  | some r =>
    if r = rank then some (processTrackers (originOf line) e results (tokensOf line))
    else none

/-- The line loop of `process_data`, threading the 1-based line number as
the rank. -/
def processLines : Evaluator → Results → Nat → List String → Option (Evaluator × Results)
  | e, results, _, [] => some (e, results)
  | e, results, rank, line :: rest =>
    match processLine e results rank line with
    | none => none
    | some p => processLines p.1 p.2 (rank + 1) rest

/-- Model of `Evaluator.process_data`: ingest one blocker file (given as its list of
lines) and store the accumulated per-origin result sets under the blocker's
name.  `none` models the `AssertionError` raised on a rank conflict. -/
def process_data (e : Evaluator) (lines : List String) (blocker_name : String) :
    Option Evaluator :=
  (processLines e [] 1 lines).map fun p =>
    { p.1 with blocker_results := setEntry p.1.blocker_results blocker_name p.2 }

/-- Model of `Evaluator.get_frequency`: a `defaultdict` read.  Returns the stored
count, or 0 for an absent tracker - in which case the missing key is
inserted with value 0 (the `__missing__` side effect), so the call returns
the value together with the possibly-updated state. -/
def get_frequency (e : Evaluator) (tracker_name : String) : Nat × Evaluator :=
  match lookupKey e.tracker_frequency tracker_name with
  | some v => (v, e)
  | none => (0, { e with tracker_frequency := setEntry e.tracker_frequency tracker_name 0 })

/-- The origin loop of `blocker_subset_score` with its running score:
origins outside the subset are skipped; an origin missing from `websites`
would raise `KeyError` (`none`); otherwise every tracker in the origin's
result set contributes `eval_func rank frequency`.  The frequency read is
modelled by its value (0 for an absent key). -/
def scoreOrigins (e : Evaluator) (subset : List String) :
    ℚ → Results → Option ℚ
  | score, [] => some score
  | score, (origin, trackers) :: rest =>
    if origin ∈ subset then
      match lookupKey e.websites origin with
      | none => none
      | some rank =>
        scoreOrigins e subset
          (trackers.foldl
            (fun s t => s + e.eval_func rank ((lookupKey e.tracker_frequency t).getD 0)) score)
          rest
    else scoreOrigins e subset score rest

/-- Model of `Evaluator.blocker_subset_score`: `none` models the `KeyError` raised
when the blocker name was never ingested. -/
def blocker_subset_score (e : Evaluator) (blocker_name : String) (subset : List String) :
    Option ℚ :=
  match lookupKey e.blocker_results blocker_name with
  | none => none
  | some blocked_trackers => scoreOrigins e subset 0 blocked_trackers

/-- Python `self.websites.keys()`: the list of every origin domain ever recorded. -/
def websites_keys (e : Evaluator) : List String :=
  e.websites.map Prod.fst

/-- Model of `Evaluator.blocker_score`: the subset score over all recorded origins. -/
def blocker_score (e : Evaluator) (blocker_name : String) : Option ℚ :=
  blocker_subset_score e blocker_name (websites_keys e)

/-- Model of `Evaluator.set_evaluation_function`. -/
def set_evaluation_function (e : Evaluator) (f : Nat → Nat → ℚ) : Evaluator :=
  { e with eval_func := f }

/-- The spec's worked example: the two-line input ingested as blocker `X`
into a fresh evaluator. -/
def exampleEvaluator : Evaluator :=
  (process_data initEvaluator
    ["Google.com,adservice.google.com/\n", "Youtube.com,static.doubleclick.net/\n"]
    "X").getD initEvaluator

/-! ### Association-list lemmas -/

theorem lookup_setEntry_self {α : Type} (m : List (String × α)) (k : String) (v : α) :
    lookupKey (setEntry m k v) k = some v := by
  induction m with
  | nil => simp [setEntry, lookupKey]
  | cons p rest ih =>
    obtain ⟨a, b⟩ := p
    by_cases h : a = k
    · simp [setEntry, lookupKey, h]
    · simp [setEntry, lookupKey, h, ih]

theorem lookup_setEntry_ne {α : Type} (m : List (String × α)) (k o : String) (v : α)
    (h : o ≠ k) : lookupKey (setEntry m k v) o = lookupKey m o := by
  have hko : ¬ k = o := fun hk => h hk.symm
  induction m with
  | nil => simp [setEntry, lookupKey, hko]
  | cons p rest ih =>
    obtain ⟨a, b⟩ := p
    by_cases ha : a = k
    · subst ha
      simp [setEntry, lookupKey, hko]
    · simp [setEntry, lookupKey, ha, ih]

/-! ### Branch equations for the tracker-loop body -/

theorem processTracker_skip (e : Evaluator) (r : Results) (origin t : String)
    (h : t = "" ∨ t = "\n") : processTracker e r origin t = (e, r) := by
  unfold processTracker
  rw [if_pos h]

theorem processTracker_seen (e : Evaluator) (r : Results) (origin t : String)
    (h1 : ¬(t = "" ∨ t = "\n")) (h2 : t ∈ e.website_trackers origin) :
    processTracker e r origin t = (e, addResult r origin t) := by
  unfold processTracker
  rw [if_neg h1, if_pos h2]

theorem processTracker_new (e : Evaluator) (r : Results) (origin t : String)
    (h1 : ¬(t = "" ∨ t = "\n")) (h2 : t ∉ e.website_trackers origin) :
    processTracker e r origin t =
      ({ e with
          tracker_frequency :=
            setEntry e.tracker_frequency t ((lookupKey e.tracker_frequency t).getD 0 + 1)
          website_trackers := fun o =>
            if o = origin then t :: e.website_trackers o else e.website_trackers o },
        addResult r origin t) := by
  unfold processTracker
  rw [if_neg h1, if_neg h2]

theorem processTracker_websites (e : Evaluator) (r : Results) (origin t : String) :
    (processTracker e r origin t).1.websites = e.websites := by
  by_cases h1 : t = "" ∨ t = "\n"
  · rw [processTracker_skip e r origin t h1]
  · by_cases h2 : t ∈ e.website_trackers origin
    · rw [processTracker_seen e r origin t h1 h2]
    · rw [processTracker_new e r origin t h1 h2]

theorem processTracker_wt_mono (e : Evaluator) (r : Results) (origin t o' t' : String)
    (hmem : t' ∈ e.website_trackers o') :
    t' ∈ (processTracker e r origin t).1.website_trackers o' := by
  by_cases h1 : t = "" ∨ t = "\n"
  · rw [processTracker_skip e r origin t h1]
    exact hmem
  · by_cases h2 : t ∈ e.website_trackers origin
    · rw [processTracker_seen e r origin t h1 h2]
      exact hmem
    · rw [processTracker_new e r origin t h1 h2]
      show t' ∈ (if o' = origin then t :: e.website_trackers o' else e.website_trackers o')
      by_cases ho : o' = origin
      · rw [if_pos ho]
        exact List.mem_cons_of_mem t hmem
      · rw [if_neg ho]
        exact hmem

theorem processTracker_wt_self (e : Evaluator) (r : Results) (origin t : String)
    (h1 : ¬(t = "" ∨ t = "\n")) :
    t ∈ (processTracker e r origin t).1.website_trackers origin := by
  by_cases h2 : t ∈ e.website_trackers origin
  · rw [processTracker_seen e r origin t h1 h2]
    exact h2
  · rw [processTracker_new e r origin t h1 h2]
    show t ∈ (if origin = origin then t :: e.website_trackers origin else e.website_trackers origin)
    rw [if_pos rfl]
    exact List.mem_cons_self t (e.website_trackers origin)

/-! ### The tracker loop over a whole line -/

theorem processTrackers_websites (origin : String) (ts : List String) (e : Evaluator)
    (r : Results) : (processTrackers origin e r ts).1.websites = e.websites := by
  induction ts generalizing e r with
  | nil => rfl
  | cons u us ih =>
    simp only [processTrackers]
    rw [ih, processTracker_websites]

theorem processTrackers_wt_mono (origin : String) (ts : List String) (e : Evaluator)
    (r : Results) (o' t' : String) (hmem : t' ∈ e.website_trackers o') :
    t' ∈ (processTrackers origin e r ts).1.website_trackers o' := by
  induction ts generalizing e r with
  | nil => exact hmem
  | cons u us ih =>
    simp only [processTrackers]
    exact ih _ _ (processTracker_wt_mono e r origin u o' t' hmem)

theorem processTrackers_wt_covers (origin : String) (ts : List String) (e : Evaluator)
    (r : Results) (t : String) (hts : t ∈ ts) (hv : ¬(t = "" ∨ t = "\n")) :
    t ∈ (processTrackers origin e r ts).1.website_trackers origin := by
  induction ts generalizing e r with
  | nil => exact absurd hts (List.not_mem_nil t)
  | cons u us ih =>
    simp only [processTrackers]
    rcases List.mem_cons.mp hts with rfl | hmem
    · exact processTrackers_wt_mono origin us _ _ origin t
        (processTracker_wt_self e r origin t hv)
    · exact ih _ _ hmem

theorem processTrackers_fix (origin : String) (ts : List String) (e : Evaluator)
    (r : Results) (h : ∀ t ∈ ts, ¬(t = "" ∨ t = "\n") → t ∈ e.website_trackers origin) :
    (processTrackers origin e r ts).1 = e := by
  induction ts generalizing r with
  | nil => rfl
  | cons u us ih =>
    simp only [processTrackers]
    by_cases h1 : u = "" ∨ u = "\n"
    · rw [processTracker_skip e r origin u h1]
      exact ih r (fun t ht => h t (List.mem_cons_of_mem u ht))
    · rw [processTracker_seen e r origin u h1 (h u (List.mem_cons_self u us) h1)]
      exact ih (addResult r origin u) (fun t ht => h t (List.mem_cons_of_mem u ht))

/-! ### One line of ingestion -/

theorem processLine_websites_mono (e : Evaluator) (r : Results) (rank : Nat) (line : String)
    (p : Evaluator × Results) (h : processLine e r rank line = some p) (o' : String) (v : Nat)
    (hv : lookupKey e.websites o' = some v) : lookupKey p.1.websites o' = some v := by
  unfold processLine at h
  cases hl : lookupKey e.websites (originOf line) with
  | none =>
    simp only [hl] at h
    injection h with h
    rw [← h, processTrackers_websites]
    show lookupKey (setEntry e.websites (originOf line) rank) o' = some v
    have hne : o' ≠ originOf line := by
      intro hcontra
      rw [hcontra, hl] at hv
      exact Option.noConfusion hv
    rw [lookup_setEntry_ne e.websites (originOf line) o' rank hne]
    exact hv
  | some rr =>
    simp only [hl] at h
    by_cases hr : rr = rank
    · rw [if_pos hr] at h
      injection h with h
      rw [← h, processTrackers_websites]
      exact hv
    · rw [if_neg hr] at h
      exact Option.noConfusion h

theorem processLine_records (e : Evaluator) (r : Results) (rank : Nat) (line : String)
    (p : Evaluator × Results) (h : processLine e r rank line = some p) :
    lookupKey p.1.websites (originOf line) = some rank := by
  unfold processLine at h
  cases hl : lookupKey e.websites (originOf line) with
  | none =>
    simp only [hl] at h
    injection h with h
    rw [← h, processTrackers_websites]
    show lookupKey (setEntry e.websites (originOf line) rank) (originOf line) = some rank
    exact lookup_setEntry_self e.websites (originOf line) rank
  | some rr =>
    simp only [hl] at h
    by_cases hr : rr = rank
    · rw [if_pos hr] at h
      injection h with h
      rw [← h, processTrackers_websites, hl, hr]
    · rw [if_neg hr] at h
      exact Option.noConfusion h

theorem processLine_wt_mono (e : Evaluator) (r : Results) (rank : Nat) (line : String)
    (p : Evaluator × Results) (h : processLine e r rank line = some p) (o' t' : String)
    (hmem : t' ∈ e.website_trackers o') : t' ∈ p.1.website_trackers o' := by
  unfold processLine at h
  cases hl : lookupKey e.websites (originOf line) with
  | none =>
    simp only [hl] at h
    injection h with h
    rw [← h]
    exact processTrackers_wt_mono (originOf line) (tokensOf line) _ _ o' t' hmem
  | some rr =>
    simp only [hl] at h
    by_cases hr : rr = rank
    · rw [if_pos hr] at h
      injection h with h
      rw [← h]
      exact processTrackers_wt_mono (originOf line) (tokensOf line) _ _ o' t' hmem
    · rw [if_neg hr] at h
      exact Option.noConfusion h

theorem processLine_wt_covers (e : Evaluator) (r : Results) (rank : Nat) (line : String)
    (p : Evaluator × Results) (h : processLine e r rank line = some p) (t : String)
    (ht : t ∈ tokensOf line) (hv : ¬(t = "" ∨ t = "\n")) :
    t ∈ p.1.website_trackers (originOf line) := by
  unfold processLine at h
  cases hl : lookupKey e.websites (originOf line) with
  | none =>
    simp only [hl] at h
    injection h with h
    rw [← h]
    exact processTrackers_wt_covers (originOf line) (tokensOf line) _ _ t ht hv
  | some rr =>
    simp only [hl] at h
    by_cases hr : rr = rank
    · rw [if_pos hr] at h
      injection h with h
      rw [← h]
      exact processTrackers_wt_covers (originOf line) (tokensOf line) _ _ t ht hv
    · rw [if_neg hr] at h
      exact Option.noConfusion h

theorem processLine_rerun (e : Evaluator) (r : Results) (rank : Nat) (line : String)
    (hw : lookupKey e.websites (originOf line) = some rank)
    (hseen : ∀ t ∈ tokensOf line, ¬(t = "" ∨ t = "\n") → t ∈ e.website_trackers (originOf line)) :
    ∃ r2, processLine e r rank line = some (e, r2) := by
  have h1 : (processTrackers (originOf line) e r (tokensOf line)).1 = e :=
    processTrackers_fix (originOf line) (tokensOf line) e r hseen
  have h2 : processTrackers (originOf line) e r (tokensOf line) =
      ((processTrackers (originOf line) e r (tokensOf line)).1,
        (processTrackers (originOf line) e r (tokensOf line)).2) := rfl
  rw [h1] at h2
  refine ⟨(processTrackers (originOf line) e r (tokensOf line)).2, ?_⟩
  unfold processLine
  simp only [hw, if_true]
  exact congrArg some h2

/-! ### The line loop -/

theorem processLines_websites_mono (ls : List String) (e : Evaluator) (r : Results)
    (rank : Nat) (p : Evaluator × Results) (h : processLines e r rank ls = some p)
    (o' : String) (v : Nat) (hv : lookupKey e.websites o' = some v) :
    lookupKey p.1.websites o' = some v := by
  induction ls generalizing e r rank with
  | nil =>
    injection h with h
    rw [← h]
    exact hv
  | cons line rest ih =>
    simp only [processLines] at h
    cases hl : processLine e r rank line with
    | none =>
      simp only [hl] at h
      exact Option.noConfusion h
    | some q =>
      simp only [hl] at h
      exact ih q.1 q.2 (rank + 1) h (processLine_websites_mono e r rank line q hl o' v hv)

theorem processLines_wt_mono (ls : List String) (e : Evaluator) (r : Results)
    (rank : Nat) (p : Evaluator × Results) (h : processLines e r rank ls = some p)
    (o' t' : String) (hmem : t' ∈ e.website_trackers o') :
    t' ∈ p.1.website_trackers o' := by
  induction ls generalizing e r rank with
  | nil =>
    injection h with h
    rw [← h]
    exact hmem
  | cons line rest ih =>
    simp only [processLines] at h
    cases hl : processLine e r rank line with
    | none =>
      simp only [hl] at h
      exact Option.noConfusion h
    | some q =>
      simp only [hl] at h
      exact ih q.1 q.2 (rank + 1) h (processLine_wt_mono e r rank line q hl o' t' hmem)

theorem processLines_rank (ls : List String) (e : Evaluator) (r : Results) (rank : Nat)
    (p : Evaluator × Results) (h : processLines e r rank ls = some p) (i : Nat)
    (hi : i < ls.length) :
    lookupKey p.1.websites (originOf (ls.get ⟨i, hi⟩)) = some (rank + i) := by
  induction ls generalizing e r rank i with
  | nil => exact absurd hi (Nat.not_lt_zero i)
  | cons line rest ih =>
    simp only [processLines] at h
    cases hl : processLine e r rank line with
    | none =>
      simp only [hl] at h
      exact Option.noConfusion h
    | some q =>
      simp only [hl] at h
      cases i with
      | zero =>
        have h0 := processLine_records e r rank line q hl
        have hfin := processLines_websites_mono rest q.1 q.2 (rank + 1) p h
          (originOf line) rank h0
        show lookupKey p.1.websites (originOf line) = some (rank + 0)
        rw [Nat.add_zero]
        exact hfin
      | succ j =>
        have hj : j < rest.length := Nat.lt_of_succ_lt_succ hi
        have hstep := ih q.1 q.2 (rank + 1) h j hj
        show lookupKey p.1.websites (originOf (rest.get ⟨j, hj⟩)) = some (rank + (j + 1))
        rw [show rank + (j + 1) = rank + 1 + j by omega]
        exact hstep

theorem processLines_wt_covers (ls : List String) (e : Evaluator) (r : Results)
    (rank : Nat) (p : Evaluator × Results) (h : processLines e r rank ls = some p)
    (line : String) (hline : line ∈ ls) (t : String) (ht : t ∈ tokensOf line)
    (hv : ¬(t = "" ∨ t = "\n")) : t ∈ p.1.website_trackers (originOf line) := by
  induction ls generalizing e r rank with
  | nil => exact absurd hline (List.not_mem_nil line)
  | cons l rest ih =>
    simp only [processLines] at h
    cases hl : processLine e r rank l with
    | none =>
      simp only [hl] at h
      exact Option.noConfusion h
    | some q =>
      simp only [hl] at h
      rcases List.mem_cons.mp hline with rfl | hmem
      · exact processLines_wt_mono rest q.1 q.2 (rank + 1) p h (originOf line) t
          (processLine_wt_covers e r rank line q hl t ht hv)
      · exact ih q.1 q.2 (rank + 1) h hmem

theorem processLines_rerun (ls : List String) (e : Evaluator) (r : Results) (rank : Nat)
    (hw : ∀ i, (hi : i < ls.length) →
      lookupKey e.websites (originOf (ls.get ⟨i, hi⟩)) = some (rank + i))
    (hseen : ∀ line ∈ ls, ∀ t ∈ tokensOf line, ¬(t = "" ∨ t = "\n") →
      t ∈ e.website_trackers (originOf line)) :
    ∃ r2, processLines e r rank ls = some (e, r2) := by
  induction ls generalizing r rank with
  | nil => exact ⟨r, rfl⟩
  | cons line rest ih =>
    have hw0 : lookupKey e.websites (originOf line) = some rank := by
      have hz := hw 0 (Nat.succ_pos rest.length)
      rw [Nat.add_zero] at hz
      exact hz
    obtain ⟨r1, hr1⟩ :=
      processLine_rerun e r rank line hw0 (hseen line (List.mem_cons_self line rest))
    have hw2 : ∀ i, (hi : i < rest.length) →
        lookupKey e.websites (originOf (rest.get ⟨i, hi⟩)) = some (rank + 1 + i) := by
      intro i hi
      have hs := hw (i + 1) (Nat.succ_lt_succ hi)
      rw [show rank + 1 + i = rank + (i + 1) by omega]
      exact hs
    have hseen2 : ∀ l ∈ rest, ∀ t ∈ tokensOf l, ¬(t = "" ∨ t = "\n") →
        t ∈ e.website_trackers (originOf l) :=
      fun l hl => hseen l (List.mem_cons_of_mem line hl)
    obtain ⟨r2, hr2⟩ := ih r1 (rank + 1) hw2 hseen2
    refine ⟨r2, ?_⟩
    simp only [processLines, hr1]
    exact hr2

/-! ### Scoring lemmas -/

theorem scoreOrigins_empty_subset (e : Evaluator) (score : ℚ) (bt : Results) :
    scoreOrigins e [] score bt = some score := by
  induction bt generalizing score with
  | nil => rfl
  | cons q rest ih =>
    obtain ⟨origin, trackers⟩ := q
    simp only [scoreOrigins]
    rw [if_neg (List.not_mem_nil origin)]
    exact ih score

theorem scoreOrigins_subset_congr (e : Evaluator) (S1 S2 : List String)
    (hS : ∀ o, o ∈ S1 ↔ o ∈ S2) (score : ℚ) (bt : Results) :
    scoreOrigins e S1 score bt = scoreOrigins e S2 score bt := by
  induction bt generalizing score with
  | nil => rfl
  | cons q rest ih =>
    obtain ⟨origin, trackers⟩ := q
    simp only [scoreOrigins]
    by_cases ho : origin ∈ S1
    · rw [if_pos ho, if_pos ((hS origin).mp ho)]
      cases hw : lookupKey e.websites origin with
      | none => rfl
      | some rank => exact ih _
    · rw [if_neg ho, if_neg (fun hc => ho ((hS origin).mpr hc))]
      exact ih score

theorem scoreOrigins_state_congr (e1 e2 : Evaluator) (S : List String)
    (hw : e1.websites = e2.websites) (hf : e1.eval_func = e2.eval_func)
    (hm : ∀ t, (lookupKey e1.tracker_frequency t).getD 0 =
      (lookupKey e2.tracker_frequency t).getD 0) (score : ℚ) (bt : Results) :
    scoreOrigins e1 S score bt = scoreOrigins e2 S score bt := by
  induction bt generalizing score with
  | nil => rfl
  | cons q rest ih =>
    obtain ⟨origin, trackers⟩ := q
    simp only [scoreOrigins]
    by_cases ho : origin ∈ S
    · rw [if_pos ho, if_pos ho, hw]
      cases hl : lookupKey e2.websites origin with
      | none => rfl
      | some rank =>
        have hfold :
            (fun (s : ℚ) (t : String) =>
              s + e1.eval_func rank ((lookupKey e1.tracker_frequency t).getD 0)) =
            (fun (s : ℚ) (t : String) =>
              s + e2.eval_func rank ((lookupKey e2.tracker_frequency t).getD 0)) := by
          funext s t
          rw [hf, hm t]
        show scoreOrigins e1 S
            (List.foldl
              (fun s t => s + e1.eval_func rank ((lookupKey e1.tracker_frequency t).getD 0))
              score trackers) rest =
          scoreOrigins e2 S
            (List.foldl
              (fun s t => s + e2.eval_func rank ((lookupKey e2.tracker_frequency t).getD 0))
              score trackers) rest
        rw [hfold]
        exact ih _
    · rw [if_neg ho, if_neg ho]
      exact ih score

theorem blocker_subset_score_state_congr (e1 e2 : Evaluator) (b : String) (S : List String)
    (hbr : e1.blocker_results = e2.blocker_results) (hw : e1.websites = e2.websites)
    (hf : e1.eval_func = e2.eval_func)
    (hm : ∀ t, (lookupKey e1.tracker_frequency t).getD 0 =
      (lookupKey e2.tracker_frequency t).getD 0) :
    blocker_subset_score e1 b S = blocker_subset_score e2 b S := by
  unfold blocker_subset_score
  rw [hbr]
  cases hb : lookupKey e2.blocker_results b with
  | none => rfl
  | some bt => exact scoreOrigins_state_congr e1 e2 S hw hf hm 0 bt

/-! ### Claim theorems -/

/-- C1: frequency counting is idempotent on (origin, tracker) pairs.  If a
blocker file has been ingested successfully, ingesting the very same file
again - under the same blocker name or any other, so in particular a second
blocker reporting the same trackers on the same origin sites - succeeds and
leaves every tracker's global frequency exactly as the first ingestion left
it. -/
theorem process_data_reingest_preserves_frequency (e : Evaluator) (f : List String)
    (b b2 : String) (e1 : Evaluator) (h : process_data e f b = some e1) :
    ∃ e2, process_data e1 f b2 = some e2 ∧ e2.tracker_frequency = e1.tracker_frequency := by
  unfold process_data at h
  cases hp : processLines e [] 1 f with
  | none =>
    rw [hp] at h
    exact Option.noConfusion h
  | some p =>
    rw [hp] at h
    injection h with h
    have hwke : e1.websites = p.1.websites := by rw [← h]
    have hwte : e1.website_trackers = p.1.website_trackers := by rw [← h]
    have hw1 : ∀ i, (hi : i < f.length) →
        lookupKey e1.websites (originOf (f.get ⟨i, hi⟩)) = some (1 + i) := by
      intro i hi
      rw [hwke]
      exact processLines_rank f e [] 1 p hp i hi
    have hs1 : ∀ line ∈ f, ∀ t ∈ tokensOf line, ¬(t = "" ∨ t = "\n") →
        t ∈ e1.website_trackers (originOf line) := by
      intro line hl t ht hv
      rw [hwte]
      exact processLines_wt_covers f e [] 1 p hp line hl t ht hv
    obtain ⟨r2, hr2⟩ := processLines_rerun f e1 [] 1 hw1 hs1
    refine ⟨{ e1 with blocker_results := setEntry e1.blocker_results b2 r2 }, ?_, rfl⟩
    unfold process_data
    rw [hr2]
    rfl

/-- Witness for C1 at a concrete input: re-ingesting the one-line file
`a.com,t1` under a second blocker name succeeds and leaves the frequency
table unchanged. -/
theorem process_data_reingest_preserves_frequency_witness :
    ∃ e2, process_data ((process_data initEvaluator ["a.com,t1"] "X").getD initEvaluator)
        ["a.com,t1"] "Y" = some e2 ∧
      e2.tracker_frequency =
        ((process_data initEvaluator ["a.com,t1"] "X").getD initEvaluator).tracker_frequency :=
  process_data_reingest_preserves_frequency initEvaluator ["a.com,t1"] "X" "Y" _ rfl

/-- C4: if any line's origin domain already has a recorded rank different
from that line's number - recorded either before this ingestion call or (as
the duplicated-origin disjunct forces within a run) during it - then
`process_data` fails with the assertion error, modelled as `none`. -/
theorem process_data_rank_conflict_fails (e : Evaluator) (lines : List String) (b : String)
    (h : (∃ i, ∃ hi : i < lines.length, ∃ v,
        lookupKey e.websites (originOf (lines.get ⟨i, hi⟩)) = some v ∧ v ≠ i + 1) ∨
      (∃ i, ∃ j, ∃ hi : i < lines.length, ∃ hj : j < lines.length, i ≠ j ∧
        originOf (lines.get ⟨i, hi⟩) = originOf (lines.get ⟨j, hj⟩))) :
    process_data e lines b = none := by
  cases hp : process_data e lines b with
  | none => rfl
  | some e1 =>
    exfalso
    unfold process_data at hp
    cases hq : processLines e [] 1 lines with
    | none =>
      rw [hq] at hp
      exact Option.noConfusion hp
    | some p =>
      rcases h with ⟨i, hi, v, hv, hne⟩ | ⟨i, j, hi, hj, hij, heq⟩
      · have h1 := processLines_websites_mono lines e [] 1 p hq
          (originOf (lines.get ⟨i, hi⟩)) v hv
        have h2 := processLines_rank lines e [] 1 p hq i hi
        rw [h1] at h2
        have h3 := Option.some.inj h2
        omega
      · have h2i := processLines_rank lines e [] 1 p hq i hi
        have h2j := processLines_rank lines e [] 1 p hq j hj
        rw [heq, h2j] at h2i
        have h3 := Option.some.inj h2i
        omega

/-- Witness for C4 at a concrete input: with `a.com` already recorded at
rank 2, ingesting a file whose first line has origin `a.com` fails. -/
theorem process_data_rank_conflict_fails_witness :
    process_data { initEvaluator with websites := [("a.com", 2)] } ["a.com,t"] "B" = none :=
  process_data_rank_conflict_fails { initEvaluator with websites := [("a.com", 2)] }
    ["a.com,t"] "B" (Or.inl ⟨0, by decide, 2, rfl, by decide⟩)


/-- C2 counterexample: after ingesting the example input, the frequency of
the plain tracker identifier `adservice.google.com/` is 0, not 1 as the
claim states - the stored token retains the line's trailing newline. -/
theorem exampleEvaluator_plain_key_frequency_not_one :
    (get_frequency exampleEvaluator "adservice.google.com/").1 = 0 ∧
    ¬(get_frequency exampleEvaluator "adservice.google.com/").1 = 1 := by
  decide

/-- C2 amended: the example ingestion yields rank 1 for `Google.com`, rank 2
for `Youtube.com`, frequency 1 for each of the two parsed tracker tokens
(which retain the trailing newline character), and a default-function
blocker score of `(1/1)^2*1 + (1/2)^2*1 = 5/4 = 1.25`. -/
theorem exampleEvaluator_values :
    lookupKey exampleEvaluator.websites "Google.com" = some 1 ∧
    lookupKey exampleEvaluator.websites "Youtube.com" = some 2 ∧
    (get_frequency exampleEvaluator "adservice.google.com/\n").1 = 1 ∧
    (get_frequency exampleEvaluator "static.doubleclick.net/\n").1 = 1 ∧
    blocker_score exampleEvaluator "X" = some ((5 : ℚ) / 4) := by
  refine ⟨by decide, by decide, by decide, by decide, ?_⟩
  have hred : blocker_score exampleEvaluator "X" =
      some (0 + evaluation_function 1 1 + evaluation_function 2 1) := rfl
  rw [hred]
  norm_num [evaluation_function]

/-- C3: the full blocker score equals the subset score taken over the set of
all recorded origin domains (any subset with exactly that membership). -/
theorem blocker_score_eq_subset_score_all_origins (e : Evaluator) (b : String)
    (S : List String) (hS : ∀ o, o ∈ S ↔ o ∈ websites_keys e) :
    blocker_score e b = blocker_subset_score e b S := by
  unfold blocker_score blocker_subset_score
  cases hb : lookupKey e.blocker_results b with
  | none => rfl
  | some bt =>
    show scoreOrigins e (websites_keys e) 0 bt = scoreOrigins e S 0 bt
    exact scoreOrigins_subset_congr e (websites_keys e) S (fun o => (hS o).symm) 0 bt

/-- Witness for C3 at a concrete input: a one-line ingestion, with the
all-origins set presented as a list with a duplicated element. -/
theorem blocker_score_eq_subset_score_all_origins_witness :
    blocker_score ((process_data initEvaluator ["a.com,t"] "X").getD initEvaluator) "X" =
      blocker_subset_score ((process_data initEvaluator ["a.com,t"] "X").getD initEvaluator)
        "X" ["a.com", "a.com"] :=
  blocker_score_eq_subset_score_all_origins
    ((process_data initEvaluator ["a.com,t"] "X").getD initEvaluator) "X" ["a.com", "a.com"]
    (fun o => by
      show o ∈ ["a.com", "a.com"] ↔ o ∈ ["a.com"]
      simp)

/-- C5: requesting a score for a blocker name that was never ingested fails
(the `KeyError` on `self.blocker_results[blocker_name]`, modelled as
`none`), for both the full score and any subset score. -/
theorem unknown_blocker_score_fails (e : Evaluator) (b : String) (S : List String)
    (h : lookupKey e.blocker_results b = none) :
    blocker_score e b = none ∧ blocker_subset_score e b S = none := by
  constructor
  · unfold blocker_score blocker_subset_score
    rw [h]
  · unfold blocker_subset_score
    rw [h]

/-- Witness for C5 at a concrete input: a fresh evaluator has no blocker
named `Z`, and both scoring queries fail on it. -/
theorem unknown_blocker_score_fails_witness :
    blocker_score initEvaluator "Z" = none ∧
    blocker_subset_score initEvaluator "Z" ["a.com"] = none :=
  unknown_blocker_score_fails initEvaluator "Z" ["a.com"] rfl

/-- C6 counterexample: ingesting a single blank line into a fresh evaluator
does not fail - the line is silently accepted, and the newline string itself
is recorded as an origin domain with rank 1. -/
theorem blank_line_ingestion_succeeds :
    (process_data initEvaluator ["\n"] "B").isSome = true ∧
    lookupKey ((process_data initEvaluator ["\n"] "B").getD initEvaluator).websites "\n" =
      some 1 := by
  decide

/-- C6 amended: no line ever causes a parse error.  `split` always yields at
least one field, so a blank line is parsed as the single field `"\n"` (or
`""`), which is silently accepted as an origin domain; a line can only fail
ingestion through the rank-conflict assertion. -/
theorem line_never_parse_error (e : Evaluator) (results : Results) (rank : Nat)
    (line : String)
    (h : lookupKey e.websites (originOf line) = none ∨
      lookupKey e.websites (originOf line) = some rank) :
    ∃ p, processLine e results rank line = some p := by
  unfold processLine
  rcases h with h | h
  · rw [h]
    exact ⟨_, rfl⟩
  · simp only [h, if_true]
    exact ⟨_, rfl⟩

/-- Witness for C6 at a concrete input: processing the blank line `"\n"` as
line 1 of a fresh evaluator succeeds. -/
theorem line_never_parse_error_witness :
    ∃ p, processLine initEvaluator [] 1 "\n" = some p :=
  line_never_parse_error initEvaluator [] 1 "\n" (Or.inl rfl)

/-- C7: looking up a tracker that is absent from the frequency table (or
present with count 0, as a previous lookup of a never-ingested tracker
leaves it) returns 0; the operation is total, never an error. -/
theorem get_frequency_unknown_returns_zero (e : Evaluator) (t : String)
    (h : lookupKey e.tracker_frequency t = none ∨
      lookupKey e.tracker_frequency t = some 0) :
    (get_frequency e t).1 = 0 := by
  unfold get_frequency
  rcases h with h | h <;> rw [h]

/-- Witness for C7 at a concrete input: a fresh evaluator reports frequency
0 for the never-seen tracker `x`. -/
theorem get_frequency_unknown_returns_zero_witness :
    (get_frequency initEvaluator "x").1 = 0 :=
  get_frequency_unknown_returns_zero initEvaluator "x" (Or.inl rfl)

/-- C8: for any ingested blocker, the subset score over the empty subset of
origin domains is 0 (every origin is filtered out of the loop). -/
theorem blocker_subset_score_empty_zero (e : Evaluator) (b : String) (bt : Results)
    (h : lookupKey e.blocker_results b = some bt) :
    blocker_subset_score e b [] = some 0 := by
  unfold blocker_subset_score
  rw [h]
  exact scoreOrigins_empty_subset e 0 bt

/-- Witness for C8 at a concrete input: after a one-line ingestion under
blocker `X`, the empty-subset score of `X` is 0. -/
theorem blocker_subset_score_empty_zero_witness :
    blocker_subset_score ((process_data initEvaluator ["a.com,t"] "X").getD initEvaluator)
      "X" [] = some 0 :=
  blocker_subset_score_empty_zero
    ((process_data initEvaluator ["a.com,t"] "X").getD initEvaluator) "X"
    [("a.com", ["t"])] rfl

theorem mem_addResult (r : Results) (origin t : String) :
    t ∈ (lookupKey (addResult r origin t) origin).getD [] := by
  unfold addResult
  cases h : lookupKey r origin with
  | none =>
    rw [lookup_setEntry_self r origin [t]]
    exact List.mem_singleton_self t
  | some ts =>
    rw [lookup_setEntry_self r origin (if t ∈ ts then ts else ts ++ [t])]
    by_cases ht : t ∈ ts
    · rw [if_pos ht]
      exact ht
    · rw [if_neg ht]
      exact List.mem_append_right ts (List.mem_singleton_self t)

/-- C9 counterexample: the single-space token of `a.com, ,b` is pure
whitespace yet is not skipped - it is counted toward global frequency and
added to the blocker's result set, contradicting the claim that pure
whitespace tokens are never treated as trackers. -/
theorem whitespace_token_counted_as_tracker :
    (get_frequency ((process_data initEvaluator ["a.com, ,b"] "B").getD initEvaluator)
      " ").1 = 1 ∧
    " " ∈ (lookupKey ((lookupKey ((process_data initEvaluator ["a.com, ,b"] "B").getD
      initEvaluator).blocker_results "B").getD []) "a.com").getD [] := by
  decide

/-- C9 amended: in the tracker loop, a token exactly equal to the empty
string or to the single newline character is skipped entirely (state and
result set untouched); every other token - including other whitespace - is
added to the blocker's result set for the origin, marked seen on the
origin, and its global frequency is incremented exactly when the
(origin, tracker) pair was not already seen. -/
theorem tracker_token_handling (e : Evaluator) (r : Results) (origin t : String) :
    ((t = "" ∨ t = "\n") → processTracker e r origin t = (e, r)) ∧
    (¬(t = "" ∨ t = "\n") →
      t ∈ (lookupKey (processTracker e r origin t).2 origin).getD [] ∧
      t ∈ (processTracker e r origin t).1.website_trackers origin ∧
      (lookupKey (processTracker e r origin t).1.tracker_frequency t).getD 0 =
        (if t ∈ e.website_trackers origin
          then (lookupKey e.tracker_frequency t).getD 0
          else (lookupKey e.tracker_frequency t).getD 0 + 1)) := by
  constructor
  · intro h
    exact processTracker_skip e r origin t h
  · intro h1
    refine ⟨?_, processTracker_wt_self e r origin t h1, ?_⟩
    · by_cases h2 : t ∈ e.website_trackers origin
      · rw [processTracker_seen e r origin t h1 h2]
        exact mem_addResult r origin t
      · rw [processTracker_new e r origin t h1 h2]
        exact mem_addResult r origin t
    · by_cases h2 : t ∈ e.website_trackers origin
      · rw [processTracker_seen e r origin t h1 h2, if_pos h2]
      · rw [processTracker_new e r origin t h1 h2, if_neg h2]
        show (lookupKey (setEntry e.tracker_frequency t
          ((lookupKey e.tracker_frequency t).getD 0 + 1)) t).getD 0 =
          (lookupKey e.tracker_frequency t).getD 0 + 1
        rw [lookup_setEntry_self]
        rfl

/-- Witness for C9 at concrete inputs: the newline token is skipped, while
the single-space token is recorded, marked seen, and counted. -/
theorem tracker_token_handling_witness :
    processTracker initEvaluator [] "a.com" "\n" = (initEvaluator, []) ∧
    (" " ∈ (lookupKey (processTracker initEvaluator [] "a.com" " ").2 "a.com").getD [] ∧
     " " ∈ (processTracker initEvaluator [] "a.com" " ").1.website_trackers "a.com" ∧
     (lookupKey (processTracker initEvaluator [] "a.com" " ").1.tracker_frequency " ").getD 0 =
       (if " " ∈ initEvaluator.website_trackers "a.com"
         then (lookupKey initEvaluator.tracker_frequency " ").getD 0
         else (lookupKey initEvaluator.tracker_frequency " ").getD 0 + 1)) :=
  ⟨(tracker_token_handling initEvaluator [] "a.com" "\n").1 (Or.inr rfl),
   (tracker_token_handling initEvaluator [] "a.com" " ").2 (by decide)⟩

/-- C10: reading the frequency of a tracker absent from the frequency table
is not a pure read: the key is inserted with count 0.  The call returns 0,
a subsequent lookup of the same tracker still returns 0, and no blocker
score is observably changed by the insertion. -/
theorem get_frequency_missing_inserts_key (e : Evaluator) (t b : String) (S : List String)
    (h : lookupKey e.tracker_frequency t = none) :
    (get_frequency e t).1 = 0 ∧
    lookupKey (get_frequency e t).2.tracker_frequency t = some 0 ∧
    (get_frequency (get_frequency e t).2 t).1 = 0 ∧
    blocker_subset_score (get_frequency e t).2 b S = blocker_subset_score e b S := by
  have he : get_frequency e t =
      (0, { e with tracker_frequency := setEntry e.tracker_frequency t 0 }) := by
    unfold get_frequency
    rw [h]
  rw [he]
  have hkey : lookupKey (setEntry e.tracker_frequency t 0) t = some 0 :=
    lookup_setEntry_self e.tracker_frequency t 0
  refine ⟨rfl, hkey, ?_, ?_⟩
  · show (get_frequency { e with tracker_frequency := setEntry e.tracker_frequency t 0 } t).1 = 0
    unfold get_frequency
    simp only [hkey]
  · refine blocker_subset_score_state_congr
      { e with tracker_frequency := setEntry e.tracker_frequency t 0 } e b S rfl rfl rfl ?_
    intro u
    by_cases hu : u = t
    · subst hu
      show (lookupKey (setEntry e.tracker_frequency u 0) u).getD 0 =
        (lookupKey e.tracker_frequency u).getD 0
      rw [lookup_setEntry_self, h]
      rfl
    · show (lookupKey (setEntry e.tracker_frequency t 0) u).getD 0 =
        (lookupKey e.tracker_frequency u).getD 0
      rw [lookup_setEntry_ne e.tracker_frequency t u 0 hu]

/-- Witness for C10 at a concrete input: the fresh evaluator has no entry
for `x`; reading it returns 0, inserts the key with 0, and changes no
score. -/
theorem get_frequency_missing_inserts_key_witness :
    (get_frequency initEvaluator "x").1 = 0 ∧
    lookupKey (get_frequency initEvaluator "x").2.tracker_frequency "x" = some 0 ∧
    (get_frequency (get_frequency initEvaluator "x").2 "x").1 = 0 ∧
    blocker_subset_score (get_frequency initEvaluator "x").2 "B" ["a.com"] =
      blocker_subset_score initEvaluator "B" ["a.com"] :=
  get_frequency_missing_inserts_key initEvaluator "x" "B" ["a.com"] rfl
